import Mathlib

/-!
Verification of the telemetry ingestion pipeline.

Shallow embedding of the repository's core components:
* the token-bucket admission limiter (`src/sink/ratelimit/ratelimit.go`),
* the durable buffer with flush-then-append policy and its gRPC handler
  (server file, `SendSensorData` / `flushBuffer`),
* the AES-GCM envelope wrapper (`src/sink/encryptor/encryptor.go`),
* the producer-side retry loop with failure classification and backoff
  (`src/sensor_node/main.go`).

Go machine integers are modelled as `Int` (no overflow is reachable in the
quantities involved), byte strings as `List Nat`, and wall-clock elapsed time
between two limiter calls as a rational number of seconds (the float64
`Duration.Seconds()` value; the products appearing in the source are exact in
float64 over the reachable domain, so `Rat` is a faithful model there).
-/

namespace Telemetry

/-! ## Admission limiter — src/sink/ratelimit/ratelimit.go

Go source:
```
type RateLimiter struct { rate int; bucket int; lastUpdate time.Time; mu sync.Mutex }
func NewRateLimiter(rate int) *RateLimiter {
    return &RateLimiter{rate: rate, bucket: rate, lastUpdate: time.Now()}
}
func (rl *RateLimiter) Allow(bytes int) bool {
    now := time.Now()
    sinceLast := now.Sub(rl.lastUpdate)
    tokensToAdd := int(sinceLast.Seconds() * float64(rl.rate))
    rl.bucket += tokensToAdd
    if rl.bucket > rl.rate { rl.bucket = rl.rate }
    rl.lastUpdate = now
    if rl.bucket >= bytes { rl.bucket -= bytes; return true }
    return false
}
```
The mutex serializes calls, so the semantics is the sequential function below.
`lastUpdate` is replaced by passing, to each call, the elapsed time since the
previous call (always non-negative for a monotonic clock), as an integer
count of nanoseconds — exactly Go's `time.Duration`. The capacity of the
bucket is the `rate` field itself. -/

structure RateLimiter where
  rate : Int
  bucket : Int
deriving DecidableEq

def NewRateLimiter (rate : Int) : RateLimiter :=
  { rate := rate, bucket := rate }

/-- Go line `tokensToAdd := int(sinceLast.Seconds() * float64(rl.rate))`:
`Seconds()` is the duration divided by 1e9, and the truncating integer
conversion of the non-negative product is its floor, i.e.
`elapsedNs * rate / 1e9` in integer division (both operands are non-negative
in every reachable call, where all integer division conventions coincide). -/
def tokensToAdd (elapsedNs rate : Int) : Int :=
  elapsedNs * rate / 1000000000

/-- One `Allow` call: returns the admission decision and the new limiter state.
`elapsedNs` is the wall-clock time (nanoseconds) since the previous call. -/
def RateLimiter.Allow (rl : RateLimiter) (bytes : Int) (elapsedNs : Int) :
    Bool × RateLimiter :=
  let b1 := rl.bucket + tokensToAdd elapsedNs rl.rate
  let b2 := if b1 > rl.rate then rl.rate else b1
  if b2 ≥ bytes then (true, { rate := rl.rate, bucket := b2 - bytes })
  else (false, { rate := rl.rate, bucket := b2 })

/-- The quota-state invariant claimed by the spec: `0 ≤ available ≤ capacity`. -/
def QuotaInv (rl : RateLimiter) : Prop :=
  0 ≤ rl.bucket ∧ rl.bucket ≤ rl.rate

instance (rl : RateLimiter) : Decidable (QuotaInv rl) := by
  unfold QuotaInv; infer_instance

/-- All observation points of a call sequence: the state before the first
call, between any two consecutive calls, and after the last call. Each list
entry is a pair (requested size, elapsed nanoseconds since the previous
call). -/
def allowStates (rl : RateLimiter) : List (Int × Int) → List RateLimiter
  | [] => [rl]
  | c :: rest => rl :: allowStates (rl.Allow c.1 c.2).2 rest

/-! ## Durable buffer — server source (`SinkServer`)

Go source (flush and the buffer section of `SendSensorData`):
```
func (s *SinkServer) flushBuffer() error {
    if len(s.buffer) == 0 { return nil }
    _, err := s.fileWriter.Write(s.buffer)
    if err != nil { return err }
    if err := s.fileWriter.Flush(); err != nil { return err }
    s.buffer = s.buffer[:0]
    return nil
}
```
The underlying file writer is external I/O; it is modelled by the `sink` field
(bytes durably written so far) plus a `fail` flag telling whether the write or
its flush reports an error on this occasion. `ioOps` counts how many times the
sink is touched, so that "performs no I/O" is expressible. On a failed write
the pending buffer is left untouched, exactly as in the source. -/

structure BufState where
  buffer : List Nat
  sink : List Nat
  ioOps : Nat
deriving DecidableEq

/-- `flushBuffer`: returns the new state and whether the flush succeeded
(`nil` error in Go). `fail` says whether the sink I/O errors this time. -/
def flushBuffer (fail : Bool) (st : BufState) : BufState × Bool :=
  if st.buffer = [] then (st, true)
  else if fail then ({ st with ioOps := st.ioOps + 1 }, false)
  else ({ buffer := [], sink := st.sink ++ st.buffer, ioOps := st.ioOps + 1 }, true)

/-- gRPC status codes (google.golang.org/grpc/codes), plus `OK` for a nil
error. The server handler returns `Unauthenticated`, `ResourceExhausted` or
`Internal`; the client classifier branches on the full enumeration. -/
inductive Code where
  | OK
  | Canceled
  | Unknown
  | InvalidArgument
  | DeadlineExceeded
  | NotFound
  | AlreadyExists
  | PermissionDenied
  | ResourceExhausted
  | FailedPrecondition
  | Aborted
  | OutOfRange
  | Unimplemented
  | Internal
  | Unavailable
  | DataLoss
  | Unauthenticated
deriving DecidableEq

/-- The buffer section of `SendSensorData` (lines 189-201 of the server file):
```
if len(s.buffer)+len(logData) > s.config.BufferSize {
    if err := s.flushBuffer(); err != nil {
        return nil, status.Errorf(codes.Internal, "flush buffer: %v", err)
    }
}
s.buffer = append(s.buffer, logData...)
```
Returns the gRPC outcome of this section (`OK` or `Internal`) and the new
buffer state. -/
def appendToBuffer (cap : Nat) (fail : Bool) (logData : List Nat)
    (st : BufState) : Code × BufState :=
  if st.buffer.length + logData.length > cap then
    match flushBuffer fail st with
    | (st1, true) => (Code.OK, { st1 with buffer := st1.buffer ++ logData })
    | (st1, false) => (Code.Internal, st1)
  else (Code.OK, { st with buffer := st.buffer ++ logData })

/-- Server configuration fields relevant to the handler. -/
structure ServerConfig where
  useTLS : Bool
  caFileSet : Bool
  bufferSize : Nat
deriving DecidableEq

/-- `validateClientCertificateIfMTLS` (server file, lines 210-237): succeeds
(returns no error) iff mTLS is not configured, or the transport handshake
yields a peer with TLS info holding at least one verified certificate.
`peerOk` models `peer.FromContext` succeeding, `tlsInfoOk` the type assertion
on `AuthInfo`, `numPeerCerts` the length of `State.PeerCertificates`. -/
def validateClientCertificateIfMTLS (cfg : ServerConfig)
    (peerOk tlsInfoOk : Bool) (numPeerCerts : Nat) : Bool :=
  if !cfg.useTLS || !cfg.caFileSet then true
  else if !peerOk then false
  else if !tlsInfoOk then false
  else if numPeerCerts = 0 then false
  else true

/-- The `SendSensorData` handler (server file, lines 146-208), state-passing:
certificate validation, then admission (`Allow` on the marshalled request
size), then the buffer section. `data` is the marshalled request, `logData`
the serialized (and possibly encrypted, newline-terminated) record appended to
the buffer; marshalling of an already-well-formed request does not fail and is
therefore not a branch here. Returns the gRPC outcome together with the
limiter and buffer states after the call. -/
def SendSensorData (cfg : ServerConfig) (peerOk tlsInfoOk : Bool)
    (numPeerCerts : Nat) (data : List Nat) (elapsed : Int)
    (logData : List Nat) (flushFail : Bool) (rl : RateLimiter)
    (st : BufState) : Code × RateLimiter × BufState :=
  if !(validateClientCertificateIfMTLS cfg peerOk tlsInfoOk numPeerCerts) then
    (Code.Unauthenticated, rl, st)
  else
    match rl.Allow (data.length : Int) elapsed with
    | (false, rl1) => (Code.ResourceExhausted, rl1, st)
    | (true, rl1) =>
      let r := appendToBuffer cfg.bufferSize flushFail logData st
      (r.1, rl1, r.2)

/-! ## Payload encryptor — src/sink/encryptor/encryptor.go

Go source:
```
func (e *AESGCMEncryptor) Encrypt(plaintext []byte) ([]byte, error) {
    nonce := make([]byte, e.gcm.NonceSize())
    io.ReadFull(rand.Reader, nonce)
    ciphertext := e.gcm.Seal(nonce, nonce, plaintext, nil)
    return ciphertext, nil
}
func (e *AESGCMEncryptor) Decrypt(ciphertext []byte) ([]byte, error) {
    if len(ciphertext) < e.gcm.NonceSize() { return nil, ... "ciphertext too short" }
    nonce, ciphertext := ciphertext[:e.gcm.NonceSize()], ciphertext[e.gcm.NonceSize():]
    plaintext, err := e.gcm.Open(nil, nonce, ciphertext, nil)
    if err != nil { return nil, ... }
    return plaintext, nil
}
```
The `cipher.AEAD` value comes from the Go standard library (crypto/cipher,
AES-GCM), external to this repository. Modelled from the spec: the spec
treats it as "a symmetric authenticated cipher" with an authentication tag,
so it is embedded as an abstract interface (`AEAD`); a claim about the
wrapper is proved under the cipher's contract (round-trip correctness,
nonce binding, single-byte tamper detection), stated as hypotheses. The
random nonce is a parameter of `Encrypt` (its generation is external I/O). -/

structure AEAD where
  nonceSize : Nat
  Seal : List Nat → List Nat → List Nat
  Open : List Nat → List Nat → Option (List Nat)

inductive DecryptError where
  | tooShort
  | authFailure
deriving DecidableEq

/-- `Encrypt`: `gcm.Seal(nonce, nonce, plaintext, nil)` appends the sealed
ciphertext+tag to the destination slice `nonce`, so the output is the nonce
prefix followed by the ciphertext+tag. -/
def Encrypt (g : AEAD) (nonce plaintext : List Nat) : List Nat :=
  nonce ++ g.Seal nonce plaintext

/-- `Decrypt`: rejects inputs shorter than the nonce, then splits off the
nonce prefix and opens the remainder. -/
def Decrypt (g : AEAD) (ciphertext : List Nat) : Except DecryptError (List Nat) :=
  if ciphertext.length < g.nonceSize then Except.error DecryptError.tooShort
  else
    match g.Open (ciphertext.take g.nonceSize) (ciphertext.drop g.nonceSize) with
    | some plaintext => Except.ok plaintext
    | none => Except.error DecryptError.authFailure

/-- `c` is `d` with exactly one byte changed (same length, one position
holding a different value). -/
def oneByteDiff (c d : List Nat) : Prop :=
  ∃ i v, ∃ h : i < d.length, d.get ⟨i, h⟩ ≠ v ∧ c = d.set i v

/-- A concrete instance of the `AEAD` interface used to witness that the
cipher contract assumed for the encryptor theorem is satisfiable: the tag is
the nonce followed by the byte sum of the plaintext, so any single-byte
change (in nonce, body or tag) and any nonce mismatch is detected. -/
def demoAEAD : AEAD where
  nonceSize := 1
  Seal := fun n p => n ++ p ++ [p.sum]
  Open := fun n c =>
    let p := (c.drop n.length).dropLast
    if c = n ++ p ++ [p.sum] then some p else none

/-! ## Delivery agent — src/sensor_node/main.go

```
const ( maxRetries = 5; baseDelay = 100 * time.Millisecond; maxDelay = 10 * time.Second )
```
Errors returned by the transport: either a gRPC status (carrying a `Code`)
or a non-status error (`status.FromError` reports `ok = false`). -/

inductive TransportErr where
  | status (c : Code)
  | nonStatusError
deriving DecidableEq

def goMaxRetries : Nat := 5

/-- Base backoff delay in nanoseconds (`100 * time.Millisecond`). -/
def goBaseDelay : Int := 100000000

/-- Backoff ceiling in nanoseconds (`10 * time.Second`). -/
def goMaxDelay : Int := 10000000000

/-- `isRetryableError` (lines 231-249): nil is not retryable; a non-status
error is retryable; otherwise classify by the fixed code table, defaulting
to retryable. -/
def isRetryableError (err : Option TransportErr) : Bool :=
  match err with
  | none => false
  | some TransportErr.nonStatusError => true
  | some (TransportErr.status c) =>
    match c with
    | Code.Unavailable => true
    | Code.DeadlineExceeded => true
    | Code.ResourceExhausted => true
    | Code.Aborted => true
    | Code.InvalidArgument => false
    | Code.NotFound => false
    | Code.PermissionDenied => false
    | Code.Unauthenticated => false
    | _ => true

/-- Terminal outcome of `sendWithRetry`. -/
inductive SendOutcome where
  | success
  | nonRetryable
  | exhausted
deriving DecidableEq

/-- The retry loop of `sendWithRetry` (lines 200-229). `results n` is the
transport outcome of attempt `n` (`none` = success). `remaining` is the
number of loop iterations left (`maxRetries - attempt`); the result carries
the outcome, the number of transport calls made and the number of sleeps
performed. Sleeping happens only when `attempt < maxRetries-1`. -/
def sendWithRetryAux (results : Nat → Option TransportErr) :
    Nat → Nat → Nat → Nat → SendOutcome × Nat × Nat
  | _, 0, calls, sleeps => (SendOutcome.exhausted, calls, sleeps)
  | attempt, remaining + 1, calls, sleeps =>
    match results attempt with
    | none => (SendOutcome.success, calls + 1, sleeps)
    | some e =>
      if isRetryableError (some e) then
        if attempt < goMaxRetries - 1 then
          sendWithRetryAux results (attempt + 1) remaining (calls + 1) (sleeps + 1)
        else
          sendWithRetryAux results (attempt + 1) remaining (calls + 1) sleeps
      else (SendOutcome.nonRetryable, calls + 1, sleeps)

def sendWithRetry (results : Nat → Option TransportErr) :
    SendOutcome × Nat × Nat :=
  sendWithRetryAux results 0 goMaxRetries 0 0

/-- Go conversion `time.Duration(x)` of a float64 `x`: truncation toward
zero. -/
def truncInt (q : Rat) : Int :=
  if 0 ≤ q then ⌊q⌋ else ⌈q⌉

/-- `calculateDelay` (lines 251-262) before the final clamp:
```
delay := time.Duration(float64(baseDelay) * math.Pow(2, float64(attempt)))
jitter := time.Duration(rand.Float64()*0.5 - 0.25) * delay
delay += jitter
```
`r` is the value drawn from `rand.Float64()`, in `[0, 1)`. The products are
exact in float64 for attempt indices in the loop's domain (< maxRetries), so
rational arithmetic models them faithfully there. -/
def calculateDelayPre (attempt : Nat) (r : Rat) : Int :=
  let delay := goBaseDelay * 2 ^ attempt
  let jitter := truncInt (r * (1 / 2) - 1 / 4) * delay
  delay + jitter

/-- `calculateDelay`: the pre-clamp delay clamped to `maxDelay`. -/
def calculateDelay (attempt : Nat) (r : Rat) : Int :=
  let d := calculateDelayPre attempt r
  if d > goMaxDelay then goMaxDelay else d

/-! ## Helper lemmas -/

theorem tokensToAdd_nonneg {elapsedNs rate : Int} (ht : 0 ≤ elapsedNs)
    (hr : 0 ≤ rate) : 0 ≤ tokensToAdd elapsedNs rate := by
  unfold tokensToAdd
  exact Int.ediv_nonneg (mul_nonneg ht hr) (by norm_num)

/-- One `Allow` call preserves the quota invariant when the requested size
and the elapsed time are non-negative. -/
theorem quotaInv_step (rl : RateLimiter) (bytes elapsedNs : Int)
    (hb : 0 ≤ bytes) (ht : 0 ≤ elapsedNs) (h : QuotaInv rl) :
    QuotaInv (rl.Allow bytes elapsedNs).2 := by
  obtain ⟨h0, h1⟩ := h
  have hr : 0 ≤ rl.rate := le_trans h0 h1
  have hadd : 0 ≤ tokensToAdd elapsedNs rl.rate := tokensToAdd_nonneg ht hr
  unfold RateLimiter.Allow QuotaInv
  set A := tokensToAdd elapsedNs rl.rate with hA
  simp only
  split_ifs <;> constructor <;> simp only <;> omega

theorem quotaInv_allowStates (calls : List (Int × Int)) :
    ∀ rl : RateLimiter, QuotaInv rl →
      (∀ c ∈ calls, 0 ≤ c.1 ∧ 0 ≤ c.2) →
      ∀ s ∈ allowStates rl calls, QuotaInv s := by
  induction calls with
  | nil =>
    intro rl h _ s hs
    simp only [allowStates, List.mem_singleton] at hs
    exact hs ▸ h
  | cons c rest ih =>
    intro rl h hc s hs
    simp only [allowStates, List.mem_cons] at hs
    rcases hs with rfl | hs
    · exact h
    · exact ih _ (quotaInv_step rl c.1 c.2 (hc c (by simp)).1 (hc c (by simp)).2 h)
        (fun d hd => hc d (List.mem_cons_of_mem _ hd)) s hs

theorem flushBuffer_empty (st : BufState) (fail : Bool) (h : st.buffer = []) :
    flushBuffer fail st = (st, true) := by
  simp [flushBuffer, h]

theorem flushBuffer_ok (st : BufState) (h : st.buffer ≠ []) :
    flushBuffer false st =
      ({ buffer := [], sink := st.sink ++ st.buffer, ioOps := st.ioOps + 1 },
        true) := by
  simp [flushBuffer, h]

theorem flushBuffer_fail (st : BufState) (h : st.buffer ≠ []) :
    flushBuffer true st = ({ st with ioOps := st.ioOps + 1 }, false) := by
  simp [flushBuffer, h]

/-! ## Claims about the admission limiter -/

/-- C1, counterexample: the claim quantifies over any integer sizes,
including negative ones. A single `Allow(-10)` on a fresh limiter of
capacity 100 is admitted and leaves `available = 110 > capacity`, so
`available ≤ capacity` fails at the observation point right after that call
(the repository's own edge-case test records exactly this state). -/
theorem quota_bound_fails_for_negative_size :
    ((NewRateLimiter 100).Allow (-10) 0).2.bucket = 110 ∧
    ¬ QuotaInv ((NewRateLimiter 100).Allow (-10) 0).2 := by decide

/-- C1, amended: for every rate-limiter instance with a non-negative
configured rate and every sequence of `Allow` calls with NON-NEGATIVE sizes
and non-negative elapsed times, `0 ≤ available ≤ capacity` holds at every
observation point (before and after each call). -/
theorem quota_invariant_nonneg_sizes (rate : Int) (hrate : 0 ≤ rate)
    (calls : List (Int × Int)) (hcalls : ∀ c ∈ calls, 0 ≤ c.1 ∧ 0 ≤ c.2) :
    ∀ s ∈ allowStates (NewRateLimiter rate) calls, QuotaInv s :=
  quotaInv_allowStates calls _ ⟨hrate, le_refl _⟩ hcalls

theorem quota_invariant_nonneg_sizes_witness :
    QuotaInv (((NewRateLimiter 100).Allow 50 0).2) := by
  have h := quota_invariant_nonneg_sizes 100 (by decide) [(50, 0)] (by decide)
  exact h _ (by decide)

/-- C2: each `Allow(size)` call with elapsed time `t` first adds
`floor(t_seconds * rate)` tokens (here `tokensToAdd`), caps the result at
the capacity (`min _ rl.rate`), and then admits iff the refilled quota is at
least `size`, subtracting `size` exactly when admitting; any `size ≤ 0` is
admitted; with rate 0, any `size > 0` is denied and `size = 0` is admitted.
The hypotheses `0 ≤ rl.rate` and `0 ≤ rl.bucket` hold in every reachable
state of a limiter built by `NewRateLimiter` with a non-negative rate. -/
theorem rateLimiter_allow_spec (rl : RateLimiter) (size elapsedNs : Int)
    (hr : 0 ≤ rl.rate) (hb : 0 ≤ rl.bucket) (ht : 0 ≤ elapsedNs) :
    (rl.Allow size elapsedNs =
      if min (rl.bucket + tokensToAdd elapsedNs rl.rate) rl.rate ≥ size then
        (true,
         { rate := rl.rate,
           bucket := min (rl.bucket + tokensToAdd elapsedNs rl.rate) rl.rate - size })
      else
        (false,
         { rate := rl.rate,
           bucket := min (rl.bucket + tokensToAdd elapsedNs rl.rate) rl.rate })) ∧
    (size ≤ 0 → (rl.Allow size elapsedNs).1 = true) ∧
    (rl.rate = 0 → 0 < size → (rl.Allow size elapsedNs).1 = false) ∧
    (rl.rate = 0 → size = 0 → (rl.Allow size elapsedNs).1 = true) := by
  have hadd : 0 ≤ tokensToAdd elapsedNs rl.rate := tokensToAdd_nonneg ht hr
  set A := tokensToAdd elapsedNs rl.rate with hA
  have hmin : (if rl.bucket + A > rl.rate then rl.rate else rl.bucket + A)
      = min (rl.bucket + A) rl.rate := by
    rw [min_def]; split_ifs <;> omega
  have heq : rl.Allow size elapsedNs =
      if min (rl.bucket + A) rl.rate ≥ size then
        (true, { rate := rl.rate, bucket := min (rl.bucket + A) rl.rate - size })
      else
        (false, { rate := rl.rate, bucket := min (rl.bucket + A) rl.rate }) := by
    simp only [RateLimiter.Allow, ← hA, hmin]
  have h1 : min (rl.bucket + A) rl.rate ≤ rl.rate := min_le_right _ _
  have h2 : 0 ≤ min (rl.bucket + A) rl.rate := le_min (by omega) hr
  refine ⟨heq, ?_, ?_, ?_⟩
  · intro hs
    rw [heq, if_pos (le_trans hs h2)]
  · intro hr0 hs
    rw [heq, if_neg (by omega)]
  · intro hr0 hs
    rw [heq, if_pos (by omega)]

theorem rateLimiter_allow_spec_witness :
    (NewRateLimiter 100).Allow 50 0 = (true, { rate := 100, bucket := 50 }) := by
  have h := rateLimiter_allow_spec (NewRateLimiter 100) 50 0 (by decide)
    (by decide) (by decide)
  rw [h.1]; decide

/-! ## Claims about the durable buffer -/

/-- C3: when an append would overflow the capacity bound, the pending bytes
are flushed first and the new record is then appended in full (never
dropped); concretely, with capacity 10, appending 6 bytes and then 6 more
triggers exactly one flush (one sink write of the first 6 bytes), leaving
the buffer holding the second 6 bytes. -/
theorem append_flush_then_append :
    (∀ (cap : Nat) (logData : List Nat) (st : BufState),
      st.buffer.length + logData.length > cap → st.buffer ≠ [] →
      appendToBuffer cap false logData st =
        (Code.OK,
          { buffer := logData, sink := st.sink ++ st.buffer,
            ioOps := st.ioOps + 1 })) ∧
    (∀ (cap : Nat) (fail : Bool) (logData : List Nat) (st : BufState),
      (appendToBuffer cap fail logData st).1 = Code.OK →
      ∃ pre, (appendToBuffer cap fail logData st).2.buffer = pre ++ logData) ∧
    (appendToBuffer 10 false [1, 1, 1, 1, 1, 1] ⟨[], [], 0⟩ =
      (Code.OK, ⟨[1, 1, 1, 1, 1, 1], [], 0⟩)) ∧
    (appendToBuffer 10 false [2, 2, 2, 2, 2, 2] ⟨[1, 1, 1, 1, 1, 1], [], 0⟩ =
      (Code.OK, ⟨[2, 2, 2, 2, 2, 2], [1, 1, 1, 1, 1, 1], 1⟩)) := by
  refine ⟨?_, ?_, by decide, by decide⟩
  · intro cap logData st hover hne
    unfold appendToBuffer
    rw [if_pos hover, flushBuffer_ok st hne]
    rfl
  · intro cap fail logData st h
    unfold appendToBuffer at h ⊢
    split_ifs at h ⊢ with hover
    · rcases hf : flushBuffer fail st with ⟨st1, ok⟩
      rw [hf] at h
      cases ok
      · exact absurd h (by exact fun hc => Code.noConfusion hc)
      · exact ⟨st1.buffer, rfl⟩
    · exact ⟨st.buffer, rfl⟩

theorem append_flush_then_append_witness :
    appendToBuffer 12 false [9, 9] ⟨[5, 5, 5, 5, 5, 5, 5, 5, 5, 5, 5], [], 3⟩ =
      (Code.OK, ⟨[9, 9], [5, 5, 5, 5, 5, 5, 5, 5, 5, 5, 5], 4⟩) := by
  have h := append_flush_then_append.1 12 [9, 9]
    ⟨[5, 5, 5, 5, 5, 5, 5, 5, 5, 5, 5], [], 3⟩ (by decide) (by decide)
  exact h

/-- C7: flushing a non-empty buffer writes the entire pending region to the
sink in one operation and resets the pending buffer to empty; flushing an
empty buffer performs no I/O (`ioOps` unchanged) and leaves the state
unchanged. -/
theorem flush_spec :
    (∀ (st : BufState) (fail : Bool), st.buffer = [] →
      flushBuffer fail st = (st, true)) ∧
    (∀ st : BufState, st.buffer ≠ [] →
      flushBuffer false st =
        ({ buffer := [], sink := st.sink ++ st.buffer,
           ioOps := st.ioOps + 1 }, true)) :=
  ⟨flushBuffer_empty, flushBuffer_ok⟩

theorem flush_spec_witness :
    flushBuffer true ⟨[], [7], 2⟩ = (⟨[], [7], 2⟩, true) ∧
    flushBuffer false ⟨[1, 2], [], 0⟩ = (⟨[], [1, 2], 1⟩, true) :=
  ⟨flush_spec.1 ⟨[], [7], 2⟩ true rfl, flush_spec.2 ⟨[1, 2], [], 0⟩ (by decide)⟩

/-- C8: when the sink write (or its flush) fails, the pending buffer is
retained unchanged for a later attempt, and the triggering request gets an
`Internal` error, both at the `flushBuffer` level and through the
`SendSensorData` handler. -/
theorem flush_failure_retains_buffer :
    (∀ st : BufState, st.buffer ≠ [] →
      flushBuffer true st = ({ st with ioOps := st.ioOps + 1 }, false)) ∧
    (∀ (cap : Nat) (logData : List Nat) (st : BufState),
      st.buffer.length + logData.length > cap → st.buffer ≠ [] →
      appendToBuffer cap true logData st =
        (Code.Internal, { st with ioOps := st.ioOps + 1 })) ∧
    (∀ (cfg : ServerConfig) (peerOk tlsInfoOk : Bool) (n : Nat)
       (data : List Nat) (elapsed : Int) (logData : List Nat)
       (rl : RateLimiter) (st : BufState),
      validateClientCertificateIfMTLS cfg peerOk tlsInfoOk n = true →
      (rl.Allow (data.length : Int) elapsed).1 = true →
      st.buffer.length + logData.length > cfg.bufferSize → st.buffer ≠ [] →
      SendSensorData cfg peerOk tlsInfoOk n data elapsed logData true rl st =
        (Code.Internal, (rl.Allow (data.length : Int) elapsed).2,
          { st with ioOps := st.ioOps + 1 })) := by
  have happ : ∀ (cap : Nat) (logData : List Nat) (st : BufState),
      st.buffer.length + logData.length > cap → st.buffer ≠ [] →
      appendToBuffer cap true logData st =
        (Code.Internal, { st with ioOps := st.ioOps + 1 }) := by
    intro cap logData st hover hne
    unfold appendToBuffer
    rw [if_pos hover, flushBuffer_fail st hne]
  refine ⟨flushBuffer_fail, happ, ?_⟩
  intro cfg peerOk tlsInfoOk n data elapsed logData rl st hv hallow hover hne
  rcases hp : rl.Allow (data.length : Int) elapsed with ⟨b, rl1⟩
  rw [hp] at hallow
  simp only at hallow
  subst hallow
  simp only [SendSensorData, hv, Bool.not_true, Bool.false_eq_true, if_false,
    hp, happ cfg.bufferSize logData st hover hne]

theorem flush_failure_retains_buffer_witness :
    flushBuffer true ⟨[3, 4], [8], 5⟩ = (⟨[3, 4], [8], 6⟩, false) :=
  flush_failure_retains_buffer.1 ⟨[3, 4], [8], 5⟩ (by decide)

/-- C9: a request that fails peer-certificate validation (mTLS configured
and the handshake context missing, malformed, or holding no verified peer
certificate) is answered with `Unauthenticated` and mutates nothing: the
rate limiter and the buffer are returned exactly as they were, so no quota
is consumed. -/
theorem unauthenticated_no_state_mutation
    (cfg : ServerConfig) (peerOk tlsInfoOk : Bool) (numPeerCerts : Nat)
    (data : List Nat) (elapsed : Int) (logData : List Nat) (flushFail : Bool)
    (rl : RateLimiter) (st : BufState)
    (htls : cfg.useTLS = true) (hca : cfg.caFileSet = true)
    (hfail : peerOk = false ∨ tlsInfoOk = false ∨ numPeerCerts = 0) :
    SendSensorData cfg peerOk tlsInfoOk numPeerCerts data elapsed logData
      flushFail rl st = (Code.Unauthenticated, rl, st) := by
  have hv : validateClientCertificateIfMTLS cfg peerOk tlsInfoOk numPeerCerts
      = false := by
    rcases hfail with h | h | h <;>
      simp [validateClientCertificateIfMTLS, htls, hca, h]
  simp [SendSensorData, hv]

theorem unauthenticated_no_state_mutation_witness :
    SendSensorData ⟨true, true, 10⟩ false true 1 [1] 0 [2] false
      (NewRateLimiter 100) ⟨[6], [], 0⟩ =
      (Code.Unauthenticated, NewRateLimiter 100, ⟨[6], [], 0⟩) :=
  unauthenticated_no_state_mutation ⟨true, true, 10⟩ false true 1 [1] 0 [2]
    false (NewRateLimiter 100) ⟨[6], [], 0⟩ rfl rfl (Or.inl rfl)

/-! ## Claims about the delivery agent -/

/-- C5: the fixed classification table (the four retryable codes, the four
non-retryable codes, and any other status code defaulting to retryable); a
non-retryable failure on attempt 0 ends `sendWithRetry` after exactly one
transport call with no sleep; and when every attempt fails retryably the
loop makes exactly `maxRetries = 5` transport calls and returns the
retries-exhausted outcome (an error value handed back to the caller, not an
exception), dropping the measurement. -/
theorem retry_classification_and_budget :
    (isRetryableError (some (TransportErr.status Code.Unavailable)) = true ∧
     isRetryableError (some (TransportErr.status Code.DeadlineExceeded)) = true ∧
     isRetryableError (some (TransportErr.status Code.ResourceExhausted)) = true ∧
     isRetryableError (some (TransportErr.status Code.Aborted)) = true ∧
     isRetryableError (some (TransportErr.status Code.InvalidArgument)) = false ∧
     isRetryableError (some (TransportErr.status Code.NotFound)) = false ∧
     isRetryableError (some (TransportErr.status Code.PermissionDenied)) = false ∧
     isRetryableError (some (TransportErr.status Code.Unauthenticated)) = false) ∧
    (∀ c : Code, c ≠ Code.InvalidArgument → c ≠ Code.NotFound →
      c ≠ Code.PermissionDenied → c ≠ Code.Unauthenticated →
      isRetryableError (some (TransportErr.status c)) = true) ∧
    (∀ (results : Nat → Option TransportErr) (e : TransportErr),
      results 0 = some e → isRetryableError (some e) = false →
      sendWithRetry results = (SendOutcome.nonRetryable, 1, 0)) ∧
    (∀ results : Nat → Option TransportErr,
      (∀ n, n < goMaxRetries →
        ∃ e, results n = some e ∧ isRetryableError (some e) = true) →
      sendWithRetry results =
        (SendOutcome.exhausted, goMaxRetries, goMaxRetries - 1)) := by
  refine ⟨by decide, ?_, ?_, ?_⟩
  · intro c h1 h2 h3 h4
    cases c <;> simp_all [isRetryableError]
  · intro results e h0 hnr
    show sendWithRetryAux results 0 (4 + 1) 0 0 = _
    simp only [sendWithRetryAux, h0, hnr, Bool.false_eq_true, if_false]
  · intro results h
    obtain ⟨e0, h0, r0⟩ := h 0 (by norm_num [goMaxRetries])
    obtain ⟨e1, h1, r1⟩ := h 1 (by norm_num [goMaxRetries])
    obtain ⟨e2, h2, r2⟩ := h 2 (by norm_num [goMaxRetries])
    obtain ⟨e3, h3, r3⟩ := h 3 (by norm_num [goMaxRetries])
    obtain ⟨e4, h4, r4⟩ := h 4 (by norm_num [goMaxRetries])
    show sendWithRetryAux results 0 (4 + 1) 0 0 = _
    simp only [sendWithRetryAux, goMaxRetries, h0, r0, h1, r1, h2, r2, h3, r3,
      h4, r4, if_true]
    norm_num

theorem retry_classification_and_budget_witness :
    sendWithRetry (fun _ => some (TransportErr.status Code.Unavailable)) =
      (SendOutcome.exhausted, goMaxRetries, goMaxRetries - 1) :=
  retry_classification_and_budget.2.2.2
    (fun _ => some (TransportErr.status Code.Unavailable))
    (fun n _ => ⟨TransportErr.status Code.Unavailable, rfl, rfl⟩)

theorem truncInt_eq_zero {q : Rat} (h1 : -1 < q) (h2 : q < 1) :
    truncInt q = 0 := by
  unfold truncInt
  split_ifs with h
  · exact Int.floor_eq_zero_iff.mpr ⟨h, h2⟩
  · exact Int.ceil_eq_zero_iff.mpr ⟨h1, le_of_not_le h⟩

/-- The float drawn in `[0, 1)` yields a jitter factor in `[-1/4, 1/4)`,
whose truncating conversion to `time.Duration` is zero. -/
theorem jitterFactor_eq_zero {r : Rat} (h0 : 0 ≤ r) (h1 : r < 1) :
    truncInt (r * (1 / 2) - 1 / 4) = 0 :=
  truncInt_eq_zero (by linarith) (by linarith)

theorem calculateDelayPre_eq (attempt : Nat) (r : Rat) (h0 : 0 ≤ r)
    (h1 : r < 1) : calculateDelayPre attempt r = goBaseDelay * 2 ^ attempt := by
  show goBaseDelay * 2 ^ attempt +
      truncInt (r * (1 / 2) - 1 / 4) * (goBaseDelay * 2 ^ attempt) =
    goBaseDelay * 2 ^ attempt
  rw [jitterFactor_eq_zero h0 h1]
  ring

/-- C6: for every attempt index and every value of the jitter random source,
the pre-clamp delay lies within `[base*2^n*0.75, base*2^n*1.25]` (it equals
`base*2^n`, since the jitter term is truncated to zero), and the post-clamp
delay never exceeds the `maxDelay` ceiling. -/
theorem backoff_bounds (attempt : Nat) (r : Rat) (h0 : 0 ≤ r) (h1 : r < 1)
    (hatt : attempt < goMaxRetries) :
    ((3 : Rat) / 4) * ((goBaseDelay * 2 ^ attempt : Int) : Rat) ≤
        ((calculateDelayPre attempt r : Int) : Rat) ∧
    ((calculateDelayPre attempt r : Int) : Rat) ≤
        ((5 : Rat) / 4) * ((goBaseDelay * 2 ^ attempt : Int) : Rat) ∧
    calculateDelay attempt r ≤ goMaxDelay := by
  have hpre := calculateDelayPre_eq attempt r h0 h1
  have hXi : (0 : Int) ≤ goBaseDelay * 2 ^ attempt := by
    have : (0 : Int) < goBaseDelay := by norm_num [goBaseDelay]
    positivity
  have hX : (0 : Rat) ≤ ((goBaseDelay * 2 ^ attempt : Int) : Rat) := by
    exact_mod_cast hXi
  refine ⟨?_, ?_, ?_⟩
  · rw [hpre]; linarith
  · rw [hpre]; linarith
  · show (if calculateDelayPre attempt r > goMaxDelay then goMaxDelay
        else calculateDelayPre attempt r) ≤ goMaxDelay
    split_ifs with hgt
    · exact le_refl _
    · exact le_of_not_lt hgt

theorem backoff_bounds_witness :
    ((3 : Rat) / 4) * ((goBaseDelay * 2 ^ 2 : Int) : Rat) ≤
        ((calculateDelayPre 2 (1 / 3) : Int) : Rat) ∧
    ((calculateDelayPre 2 (1 / 3) : Int) : Rat) ≤
        ((5 : Rat) / 4) * ((goBaseDelay * 2 ^ 2 : Int) : Rat) ∧
    calculateDelay 2 (1 / 3) ≤ goMaxDelay :=
  backoff_bounds 2 (1 / 3) (by norm_num) (by norm_num)
    (by norm_num [goMaxRetries])

/-- C10: the jitter term of `calculateDelay` is exactly zero — the float
jitter factor in `[-0.25, 0.25)` is truncated to a zero `time.Duration`
before the multiplication — so the function is deterministic and always
returns exactly `min (base * 2^n) maxDelay`, for any two draws of the
random source. -/
theorem calculateDelay_deterministic (attempt : Nat) (r r' : Rat)
    (h0 : 0 ≤ r) (h1 : r < 1) (h0' : 0 ≤ r') (h1' : r' < 1)
    (hatt : attempt < goMaxRetries) :
    truncInt (r * (1 / 2) - 1 / 4) = 0 ∧
    calculateDelay attempt r = min (goBaseDelay * 2 ^ attempt) goMaxDelay ∧
    calculateDelay attempt r = calculateDelay attempt r' := by
  have key : ∀ s : Rat, 0 ≤ s → s < 1 →
      calculateDelay attempt s = min (goBaseDelay * 2 ^ attempt) goMaxDelay := by
    intro s hs0 hs1
    show (if calculateDelayPre attempt s > goMaxDelay then goMaxDelay
        else calculateDelayPre attempt s) = _
    rw [calculateDelayPre_eq attempt s hs0 hs1]
    set X := goBaseDelay * 2 ^ attempt with hXdef
    rw [min_def]
    split_ifs <;> omega
  exact ⟨jitterFactor_eq_zero h0 h1, key r h0 h1,
    (key r h0 h1).trans (key r' h0' h1').symm⟩

theorem calculateDelay_deterministic_witness :
    calculateDelay 1 (1 / 4) = min (goBaseDelay * 2 ^ 1) goMaxDelay ∧
    calculateDelay 1 (1 / 4) = calculateDelay 1 (7 / 8) := by
  have h := calculateDelay_deterministic 1 (1 / 4) (7 / 8) (by norm_num)
    (by norm_num) (by norm_num) (by norm_num) (by norm_num [goMaxRetries])
  exact ⟨h.2.1, h.2.2⟩

/-! ## Claims about the payload encryptor -/

theorem concat_right_injective {x : List Nat} {u w : Nat}
    (h : x ++ [u] = x ++ [w]) : u = w := by
  have h2 := List.append_cancel_left h
  injection h2

theorem sum_set_add : ∀ (p : List Nat) (j v : Nat) (h : j < p.length),
    (p.set j v).sum + p.get ⟨j, h⟩ = p.sum + v := by
  intro p
  induction p with
  | nil => intro j v h; simp at h
  | cons a t ih =>
    intro j v h
    cases j with
    | zero =>
      simp only [List.set, List.sum_cons, List.get]
      omega
    | succ j =>
      simp only [List.set, List.sum_cons, List.get_cons_succ]
      have := ih j v (by simpa using h)
      omega

/-- C4: with the authenticated cipher satisfying its contract (stated as the
three hypotheses: round-trip correctness, rejection under a different nonce,
rejection of a singly-mutated sealed body), the envelope layer satisfies the
claim: `decrypt (encrypt P) = P`; mutating any single byte of a produced
envelope (nonce prefix or ciphertext+tag body) makes `Decrypt` fail with the
authentication error; and any input shorter than the nonce size is rejected
with an error. -/
theorem envelope_roundtrip_auth (g : AEAD)
    (hco : ∀ n p, n.length = g.nonceSize → g.Open n (g.Seal n p) = some p)
    (hn1 : ∀ n n' p, n.length = g.nonceSize → n'.length = g.nonceSize →
      n' ≠ n → g.Open n' (g.Seal n p) = none)
    (hau : ∀ n p c, n.length = g.nonceSize → oneByteDiff c (g.Seal n p) →
      g.Open n c = none)
    (nonce plaintext : List Nat) (hlen : nonce.length = g.nonceSize) :
    Decrypt g (Encrypt g nonce plaintext) = Except.ok plaintext ∧
    (∀ e', oneByteDiff e' (Encrypt g nonce plaintext) →
      Decrypt g e' = Except.error DecryptError.authFailure) ∧
    (∀ c : List Nat, c.length < g.nonceSize →
      Decrypt g c = Except.error DecryptError.tooShort) := by
  refine ⟨?_, ?_, ?_⟩
  · show Decrypt g (nonce ++ g.Seal nonce plaintext) = _
    unfold Decrypt
    rw [if_neg (by rw [List.length_append, hlen]; omega)]
    rw [List.take_left' hlen, List.drop_left' hlen, hco nonce plaintext hlen]
  · intro e' hd
    obtain ⟨i, v, hi, hne, he⟩ := hd
    simp only [Encrypt] at hi hne he
    by_cases hl : i < nonce.length
    · have he2 : e' = nonce.set i v ++ g.Seal nonce plaintext := by
        rw [he, List.set_append_left _ _ hl]
      have hlen2 : (nonce.set i v).length = g.nonceSize := by
        rw [List.length_set]; exact hlen
      have hnonce_ne : nonce.set i v ≠ nonce := by
        intro heq
        have hv : (nonce.set i v).get ⟨i, by rw [List.length_set]; exact hl⟩
            = v := List.get_set_eq _
        have hv2 := List.get_of_eq heq ⟨i, by rw [List.length_set]; exact hl⟩
        exact hne (by rw [List.get_append i hl]; exact hv2.symm.trans hv)
      rw [he2]
      unfold Decrypt
      rw [if_neg (by rw [List.length_append, List.length_set, hlen]; omega)]
      rw [List.take_left' hlen2, List.drop_left' hlen2,
        hn1 nonce (nonce.set i v) plaintext hlen hlen2 hnonce_ne]
    · push_neg at hl
      have hj : i - nonce.length < (g.Seal nonce plaintext).length := by
        rw [List.length_append] at hi; omega
      have he2 : e' = nonce ++ (g.Seal nonce plaintext).set (i - nonce.length) v := by
        rw [he, List.set_append_right _ _ hl]
      have hdiff : oneByteDiff
          ((g.Seal nonce plaintext).set (i - nonce.length) v)
          (g.Seal nonce plaintext) := by
        refine ⟨i - nonce.length, v, hj, ?_, rfl⟩
        intro hv
        exact hne (by rw [List.get_append_right _ _ hl, hv])
      rw [he2]
      unfold Decrypt
      rw [if_neg (by rw [List.length_append, hlen]; omega)]
      rw [List.take_left' hlen, List.drop_left' hlen,
        hau nonce plaintext _ hlen hdiff]
  · intro c hc
    unfold Decrypt
    rw [if_pos hc]

/-- Round-trip correctness of the demo cipher. -/
theorem demoAEAD_correct : ∀ n p, n.length = demoAEAD.nonceSize →
    demoAEAD.Open n (demoAEAD.Seal n p) = some p := by
  intro n p hn
  obtain ⟨a, rfl⟩ := List.length_eq_one.mp hn
  show (let q := (([a] ++ p ++ [p.sum]).drop 1).dropLast;
    if [a] ++ p ++ [p.sum] = [a] ++ q ++ [q.sum] then some q else none) = some p
  have hd : (([a] ++ p ++ [p.sum]).drop 1).dropLast = p := by
    rw [List.append_assoc, List.singleton_append, List.drop_succ_cons,
      List.drop_zero, List.dropLast_concat]
  simp [hd]

/-- Opening under a different (single-byte) nonce fails for the demo
cipher. -/
theorem demoAEAD_nonce_auth : ∀ n n' p,
    n.length = demoAEAD.nonceSize → n'.length = demoAEAD.nonceSize →
    n' ≠ n → demoAEAD.Open n' (demoAEAD.Seal n p) = none := by
  intro n n' p hn hn' hne
  obtain ⟨a, rfl⟩ := List.length_eq_one.mp hn
  obtain ⟨b, rfl⟩ := List.length_eq_one.mp hn'
  have hab : a ≠ b := by
    intro h; exact hne (by rw [h])
  show (let q := (([a] ++ p ++ [p.sum]).drop 1).dropLast;
    if [a] ++ p ++ [p.sum] = [b] ++ q ++ [q.sum] then some q else none) = none
  have hd : (([a] ++ p ++ [p.sum]).drop 1).dropLast = p := by
    rw [List.append_assoc, List.singleton_append, List.drop_succ_cons,
      List.drop_zero, List.dropLast_concat]
  simp only [hd]
  rw [if_neg]
  intro h
  rw [List.append_assoc, List.append_assoc, List.singleton_append,
    List.singleton_append] at h
  injection h with h1 _
  exact hab h1

/-- Any single-byte mutation of a sealed body is rejected by the demo
cipher. -/
theorem demoAEAD_tamper_auth : ∀ n p c, n.length = demoAEAD.nonceSize →
    oneByteDiff c (demoAEAD.Seal n p) → demoAEAD.Open n c = none := by
  intro n p c hn hd
  obtain ⟨a, rfl⟩ := List.length_eq_one.mp hn
  obtain ⟨i, v, hi, hne, rfl⟩ := hd
  have hi2 : i < (a :: (p ++ [p.sum])).length := hi
  have hne2 : (a :: (p ++ [p.sum])).get ⟨i, hi2⟩ ≠ v := hne
  show demoAEAD.Open [a] ((a :: (p ++ [p.sum])).set i v) = none
  cases i with
  | zero =>
    have hva : a ≠ v := hne2
    show (let q := (((a :: (p ++ [p.sum])).set 0 v).drop 1).dropLast;
      if (a :: (p ++ [p.sum])).set 0 v = [a] ++ q ++ [q.sum] then some q
      else none) = none
    have hd0 : (((a :: (p ++ [p.sum])).set 0 v).drop 1).dropLast = p := by
      show ((v :: (p ++ [p.sum])).drop 1).dropLast = p
      rw [List.drop_succ_cons, List.drop_zero, List.dropLast_concat]
    simp only [hd0]
    rw [if_neg]
    intro h
    rw [List.append_assoc, List.singleton_append] at h
    have h2 : (a :: (p ++ [p.sum])).set 0 v = v :: (p ++ [p.sum]) := rfl
    rw [h2] at h
    injection h with h1 _
    exact hva h1.symm
  | succ j =>
    have hj1 : j < p.length + 1 := by
      have h5 := hi2
      simp only [List.length_cons, List.length_append, List.length_singleton,
        List.length_nil] at h5
      omega
    have hset : (a :: (p ++ [p.sum])).set (j + 1) v
        = a :: ((p ++ [p.sum]).set j v) := rfl
    have hget : (a :: (p ++ [p.sum])).get ⟨j + 1, hi2⟩
        = (p ++ [p.sum]).get ⟨j, by
          simp only [List.length_append, List.length_singleton, List.length_nil]
          omega⟩ := rfl
    rw [hset]
    by_cases hjp : j < p.length
    · have hbody : (p ++ [p.sum]).set j v = p.set j v ++ [p.sum] :=
        List.set_append_left _ _ hjp
      have hsum_ne : (p.set j v).sum ≠ p.sum := by
        intro hs
        have hadd := sum_set_add p j v hjp
        have hgv : p.get ⟨j, hjp⟩ = v := by omega
        apply hne2
        rw [hget, List.get_append j hjp, hgv]
      show (let q := ((a :: ((p ++ [p.sum]).set j v)).drop 1).dropLast;
        if a :: ((p ++ [p.sum]).set j v) = [a] ++ q ++ [q.sum] then some q
        else none) = none
      have hq : ((a :: ((p ++ [p.sum]).set j v)).drop 1).dropLast
          = p.set j v := by
        rw [List.drop_succ_cons, List.drop_zero, hbody, List.dropLast_concat]
      simp only [hq]
      rw [if_neg]
      intro h
      rw [List.append_assoc, List.singleton_append, hbody] at h
      injection h with _ h2
      exact hsum_ne (concat_right_injective h2).symm
    · have hjeq : j = p.length := by omega
      subst hjeq
      have hbody : (p ++ [p.sum]).set p.length v = p ++ [v] := by
        rw [List.set_append_right _ _ (le_refl _), Nat.sub_self]
        rfl
      have hsum_ne : p.sum ≠ v := by
        intro hs
        apply hne2
        rw [hget, List.get_append_right _ _ (le_refl _)]
        · simp [hs]
        · simp
      show (let q := ((a :: ((p ++ [p.sum]).set p.length v)).drop 1).dropLast;
        if a :: ((p ++ [p.sum]).set p.length v) = [a] ++ q ++ [q.sum]
        then some q else none) = none
      have hq : ((a :: ((p ++ [p.sum]).set p.length v)).drop 1).dropLast
          = p := by
        rw [List.drop_succ_cons, List.drop_zero, hbody, List.dropLast_concat]
      simp only [hq]
      rw [if_neg]
      intro h
      rw [List.append_assoc, List.singleton_append, hbody] at h
      injection h with _ h2
      have h3 := concat_right_injective h2
      exact hsum_ne h3.symm

theorem envelope_roundtrip_auth_witness :
    Decrypt demoAEAD (Encrypt demoAEAD [7] [1, 2]) = Except.ok [1, 2] :=
  (envelope_roundtrip_auth demoAEAD demoAEAD_correct demoAEAD_nonce_auth
    demoAEAD_tamper_auth [7] [1, 2] rfl).1

end Telemetry
